import Mathlib

/-!
Verification development for the multi-model prompt dispatch and
streaming-response reconciliation engine of the Local-Fiesta dashboard.

The definitions below are a shallow embedding of the TypeScript source:
 - `src/lib/services/conversation-service.ts` (durable conversation store),
 - `src/hooks/use-ai-models-simple.ts` (dispatch engine / hook state),
 - the error classification of `src/lib/repos/lm-studio-repo.ts`.

Modelling conventions:
 - JavaScript strings are modelled by Lean `String`; `substring`, `trim`,
   `toLowerCase`, `includes` are re-implemented character-wise over `.data`
   (`strTake`, `strTrim`, `strToLower`, `strIncludes`).
 - `localStorage`-backed state of the conversation service is a
   `ServiceState` (stored conversation list plus active-conversation key);
   `estimateStorageSize` reads the whole `localStorage`, so it is abstracted
   as a parameter `est : List Conversation → Nat` of the storage layer.
 - React `useState` state is threaded explicitly (`EngineState`); `setState`
   is modelled as an immediate functional update (single-threaded
   cooperative scheduling, no re-render staleness).
 - The wire transport is abstracted by an oracle `Nat → AttemptOutcome`
   giving, per attempt index, either a send-time rejection or a stream of
   fragments optionally terminated by a mid-stream error.  `Date.now()` is a
   parameter `now`.  Timed retry delays have no state effect and are not
   modelled as time.
 - Per-model send tasks run sequentially in the embedding; each task reads
   the durable store at its own start, as the interleaved original does.
-/

namespace LocalFiesta

/-! ### JavaScript string primitives (character-wise) -/

/-- JS `String.prototype.substring(0, n)`: the first `n` characters. -/
def strTake (s : String) (n : Nat) : String := ⟨s.data.take n⟩

/-- Number of characters (JS `.length` on the modelled strings). -/
def strLength (s : String) : Nat := s.data.length

/-- The ECMAScript whitespace set stripped by `String.prototype.trim`:
WhiteSpace (TAB, VT, FF, SP, NBSP, ZWNBSP and the Space_Separator
category) plus the LineTerminator code points (LF, CR, LS, PS). -/
def isSpaceChar (c : Char) : Bool :=
  c = ' ' ∨ c = '\t' ∨ c = '\n' ∨ c = '\r' ∨
  c.val = 0x000B ∨ c.val = 0x000C ∨ c.val = 0x00A0 ∨ c.val = 0xFEFF ∨
  c.val = 0x1680 ∨ (0x2000 ≤ c.val ∧ c.val ≤ 0x200A) ∨
  c.val = 0x2028 ∨ c.val = 0x2029 ∨ c.val = 0x202F ∨ c.val = 0x205F ∨
  c.val = 0x3000

/-- JS `String.prototype.trim`: strip whitespace from both ends. -/
def strTrim (s : String) : String :=
  ⟨((s.data.dropWhile isSpaceChar).reverse.dropWhile isSpaceChar).reverse⟩

/-- JS `String.prototype.toLowerCase`, character-wise. -/
def strToLower (s : String) : String := ⟨s.data.map Char.toLower⟩

/-- Does `pat` occur at the head of `text`? -/
def charsStartWith : List Char → List Char → Bool
  | [], _ => true
  | _ :: _, [] => false
  | p :: ps, t :: ts => p = t && charsStartWith ps ts

/-- Does `pat` occur anywhere in `text`? -/
def charsContain (pat : List Char) : List Char → Bool
  | [] => pat.isEmpty
  | t :: ts => charsStartWith pat (t :: ts) || charsContain pat ts

/-- JS `s.includes(sub)`. -/
def strIncludes (s sub : String) : Bool := charsContain sub.data s.data

/-! ### Data model (`src/types/ai-models.ts` as re-exported by the tests) -/

inductive Role where
  | user
  | assistant
  | system
deriving DecidableEq

/-- `role` rendered the way the hook sends it over the wire. -/
def roleToString : Role → String
  | Role.user => "user"
  | Role.assistant => "assistant"
  | Role.system => "system"

structure ChatMessage where
  role : Role
  content : String
  timestamp : Nat
  modelId : Option String := none
deriving DecidableEq

structure Conversation where
  id : String
  title : String
  createdAt : Nat
  updatedAt : Nat
  messages : List ChatMessage
  modelIds : List String
deriving DecidableEq

structure PromptData where
  text : String
deriving DecidableEq

structure ModelConversation where
  modelId : String
  messages : List ChatMessage
  isLoading : Bool
  error : Option String := none
  retryCount : Nat := 0
  canRetry : Bool := false
  lastFailedPrompt : Option PromptData := none
deriving DecidableEq

inductive RetryStrategy where
  | immediate
  | fixed
  | exponential
deriving DecidableEq

structure RetrySettings where
  enabled : Bool
  maxRetries : Nat
  retryDelay : Nat
  retryStrategy : RetryStrategy
  retryOnlyModelErrors : Bool
deriving DecidableEq

structure AIModel where
  id : String
  name : String
  isEnabled : Bool
  useHistory : Bool
deriving DecidableEq

/-- Error taxonomy of `lm-studio-repo.ts` (`ConfigurationError` marks
model-availability problems, `NetworkError` connectivity/HTTP problems,
`ValidationError` malformed payloads). -/
inductive AppError where
  | configurationError (message : String)
  | networkError (message : String)
  | validationError (message : String)
deriving DecidableEq

/-- `err.message` of the corresponding JS `Error` subclass. -/
def AppError.message : AppError → String
  | AppError.configurationError m => m
  | AppError.networkError m => m
  | AppError.validationError m => m

/-- One outbound entry of the chat-completions request body. -/
structure ApiMessage where
  role : String
  content : String
deriving DecidableEq

/-! ### Conversation service (`conversation-service.ts`) -/

def maxStorageSize : Nat := 5 * 1024 * 1024

def maxConversations : Nat := 50

/-- The `localStorage` facts the service owns: the stored conversation list
(key `conversations`) and the active conversation id (key
`active_conversation_id`). -/
structure ServiceState where
  store : List Conversation
  activeId : Option String
deriving DecidableEq

/-- `generateTitle`: first 50 characters of the trimmed message, with an
ellipsis appended exactly when the truncation is 50 characters long. -/
def generateTitle (message : String) : String :=
  let title := strTake (strTrim message) 50
  if strLength title = 50 then title ++ "..." else title

/-- `saveConversation`'s replace-or-push step: replace the first stored
conversation with the same id (JS `findIndex` + assignment), else push. -/
def upsert (c : Conversation) : List Conversation → List Conversation
  | [] => [c]
  | d :: ds => if d.id = c.id then c :: ds else d :: upsert c ds

/-- `deleteConversation` (service level): filter the stored list by id and,
when the active conversation was deleted, activate the first remaining
stored conversation or clear the active key. -/
def svcDeleteConversation (id : String) (s : ServiceState) : ServiceState :=
  let filtered := s.store.filter (fun conv => decide ¬(conv.id = id))
  if s.activeId = some id then
    match filtered with
    | [] => { store := filtered, activeId := none }
    | c :: _ => { store := filtered, activeId := some c.id }
  else { store := filtered, activeId := s.activeId }

/-- First phase of `cleanupOldConversations`: while the sorted working list
exceeds `MAX_CONVERSATIONS`, shift its oldest entry and delete it from
storage.  Returns the remaining working list and the storage state. -/
def cleanupCount : List Conversation → ServiceState → List Conversation × ServiceState
  | [], s => ([], s)
  | c :: rest, s =>
    if (c :: rest).length > maxConversations then
      cleanupCount rest (svcDeleteConversation c.id s)
    else (c :: rest, s)

/-- Second phase of `cleanupOldConversations`: while the storage estimate
exceeds `MAX_STORAGE_SIZE` and more than one working entry remains, shift
and delete the oldest. -/
def cleanupSize (est : List Conversation → Nat) :
    List Conversation → ServiceState → List Conversation × ServiceState
  | [], s => ([], s)
  | [c], s => ([c], s)
  | c :: c' :: rest, s =>
    if est s.store > maxStorageSize then
      cleanupSize est (c' :: rest) (svcDeleteConversation c.id s)
    else (c :: c' :: rest, s)

/-- Comparator of `cleanupOldConversations`' sort: ascending `updatedAt`. -/
def updLe (a b : Conversation) : Prop := a.updatedAt ≤ b.updatedAt

instance : DecidableRel updLe := fun a b => Nat.decLe a.updatedAt b.updatedAt

instance : IsTotal Conversation updLe := ⟨fun a b => Nat.le_total a.updatedAt b.updatedAt⟩

instance : IsTrans Conversation updLe := ⟨fun _ _ _ h h' => Nat.le_trans h h'⟩

/-- `cleanupOldConversations`: sort a working copy by `updatedAt` (oldest
first, stably) and run the two eviction loops. -/
def cleanupOldConversations (est : List Conversation → Nat) (s : ServiceState) : ServiceState :=
  let sorted := List.insertionSort updLe s.store
  let p := cleanupCount sorted s
  (cleanupSize est p.1 p.2).2

/-- `saveConversation` (successful-storage path): replace-or-push, write,
then clean up. -/
def saveConversation (est : List Conversation → Nat) (c : Conversation)
    (s : ServiceState) : ServiceState :=
  cleanupOldConversations est { s with store := upsert c s.store }

/-- `createConversation`: build a fresh record (id generation abstracted as
`freshId`, `Date.now()` as `now`), save it and activate it.  The JS
condition `initialMessage ? generateTitle(initialMessage) : 'New
Conversation'` treats the empty string as falsy, so a present-but-empty
initial message also titles the conversation "New Conversation". -/
def createConversation (est : List Conversation → Nat) (freshId : String) (now : Nat)
    (initialMessage : Option String) (s : ServiceState) : Conversation × ServiceState :=
  let conversation : Conversation :=
    { id := freshId
      title := match initialMessage with
               | some m => if m = "" then "New Conversation" else generateTitle m
               | none => "New Conversation"
      createdAt := now
      updatedAt := now
      messages := []
      modelIds := [] }
  let s' := saveConversation est conversation s
  (conversation, { s' with activeId := some freshId })

/-- `addMessageToConversation`: append to the stored conversation, refresh
`updatedAt`, retitle on the first user message, track participating model
ids, and save. -/
def addMessageToConversation (est : List Conversation → Nat) (conversationId : String)
    (message : ChatMessage) (now : Nat) (s : ServiceState) : ServiceState :=
  match s.store.find? (fun conv => decide (conv.id = conversationId)) with
  | none => s
  | some conversation =>
    let c1 := { conversation with
                  messages := conversation.messages ++ [message], updatedAt := now }
    let c2 := if message.role = Role.user ∧
                 (c1.messages.filter (fun m => decide (m.role = Role.user))).length = 1 then
                { c1 with title := generateTitle message.content }
              else c1
    let c3 := match message.modelId with
              | some mid => if c2.modelIds.contains mid then c2
                            else { c2 with modelIds := c2.modelIds ++ [mid] }
              | none => c2
    saveConversation est c3 s

/-- `getConversationHistory`: the full stored message sequence of the
conversation (the service deliberately does not filter by model). -/
def getConversationHistory (store : List Conversation) (conversationId : String) :
    List ChatMessage :=
  match store.find? (fun conv => decide (conv.id = conversationId)) with
  | none => []
  | some conversation => conversation.messages

/-- The per-model rendering projection used by the hook when (re)loading a
conversation: user messages plus assistant messages owned by the model. -/
def modelProjection (messages : List ChatMessage) (modelId : String) : List ChatMessage :=
  messages.filter (fun msg => decide (msg.role = Role.user ∨ msg.modelId = some modelId))

/-! ### Dispatch engine (`use-ai-models-simple.ts`) -/

/-- The hook's `conversations` record: per-model conversation state keyed by
model id (JS object semantics: unique keys, point lookup). -/
def ModelRecord := String → Option ModelConversation

/-- In-memory engine state: the per-model record, the conversation-service
state, and the hook's own `activeConversationId` / `allConversations` /
`error` React state. -/
structure EngineState where
  records : ModelRecord
  svc : ServiceState
  hookActiveId : Option String
  allConversations : List Conversation
  hookError : Option String

/-- Point update of the per-model record, a no-op when the key is absent
(the hook's `if (updated[model.id])` guard). -/
def updateRecord (recs : ModelRecord) (key : String)
    (f : ModelConversation → ModelConversation) : ModelRecord :=
  fun id => if id = key then (recs id).map f else recs id

/-- Default retry settings used when the configuration carries none. -/
def defaultRetrySettings : RetrySettings :=
  { enabled := true
    maxRetries := 2
    retryDelay := 2000
    retryStrategy := RetryStrategy.fixed
    retryOnlyModelErrors := true }

/-- `getRetryDelay` (closure inside `sendPromptToModels`). -/
def getRetryDelay (rs : RetrySettings) (retryCount : Nat) : Nat :=
  match rs.retryStrategy with
  | RetryStrategy.exponential => rs.retryDelay * 2 ^ retryCount
  | RetryStrategy.immediate => 0
  | RetryStrategy.fixed => rs.retryDelay

/-- `shouldRetryError`: with `retryOnlyModelErrors` set, retry only
`ConfigurationError`s whose lower-cased message contains "not loaded". -/
def shouldRetryError (rs : RetrySettings) (e : AppError) : Bool :=
  if !rs.enabled then false
  else if rs.retryOnlyModelErrors then
    match e with
    | AppError.configurationError msg => strIncludes (strToLower msg) "not loaded"
    | _ => false
  else true

/-- The Preparing step of a per-model task: the outbound message list is the
whole stored history role-mapped when the model's history flag is set, else
just the current user prompt. -/
def buildApiMessages (store : List Conversation) (currentActiveId : String)
    (model : AIModel) (prompt : PromptData) : List ApiMessage :=
  if model.useHistory then
    (getConversationHistory store currentActiveId).map
      (fun msg => { role := roleToString msg.role, content := msg.content })
  else [{ role := "user", content := prompt.text }]

/-- Rewrites a model's rendered message list for one streamed chunk: replace
the trailing assistant message owned by this model with the full buffer, or
append a fresh assistant message when the trailing message is not one. -/
def chunkUpdateMessages (modelId : String) (now : Nat) (buf : String)
    (messages : List ChatMessage) : List ChatMessage :=
  match messages.getLast? with
  | some last =>
    if last.role = Role.assistant ∧ last.modelId = some modelId then
      messages.dropLast ++ [{ last with content := buf }]
    else
      messages ++ [{ role := Role.assistant, content := buf, timestamp := now,
                     modelId := some modelId }]
  | none =>
    messages ++ [{ role := Role.assistant, content := buf, timestamp := now,
                   modelId := some modelId }]

/-- The `setConversations` update run after every streamed chunk. -/
def chunkUpdate (modelId : String) (now : Nat) (buf : String) (recs : ModelRecord) :
    ModelRecord :=
  fun id =>
    if id = modelId then
      (recs id).map (fun mc =>
        { mc with
            messages := chunkUpdateMessages modelId now buf mc.messages
            isLoading := false
            error := none
            canRetry := false
            retryCount := 0 })
    else recs id

/-- Consume a finite fragment sequence, accumulating the assistant buffer
and applying `chunkUpdate` after every fragment; returns the final buffer
and record. -/
def processFragments (modelId : String) (now : Nat) (frags : List String)
    (buf : String) (recs : ModelRecord) : String × ModelRecord :=
  frags.foldl
    (fun acc f =>
      let buf' := acc.1 ++ f
      (buf', chunkUpdate modelId now buf' acc.2))
    (buf, recs)

/-- What one attempt of the transport produces: a send-time rejection, or a
stream of fragments optionally ended by a mid-stream error (`none` is normal
termination). -/
inductive AttemptOutcome where
  | sendError (e : AppError)
  | stream (frags : List String) (err : Option AppError)
deriving DecidableEq

/-- The in-flight "Retrying... (attempt/max)" indicator text. -/
def retryingMessage (rc maxR : Nat) : String :=
  "Retrying... (" ++ toString rc ++ "/" ++ toString maxR ++ ")"

/-- The per-model send task of `sendPromptToModels`: the
`while (retryCount <= maxRetries)` attempt loop.  `gas` bounds the number of
remaining iterations (`maxRetries + 1 - retryCount` at every call, so the
`gas = 0` branch is unreachable); the result carries the outbound message
list of each attempt actually sent, in order. -/
def runModelTask (rs : RetrySettings) (est : List Conversation → Nat) (model : AIModel)
    (prompt : PromptData) (now : Nat) (oracle : Nat → AttemptOutcome) (cid : String) :
    Nat → Nat → EngineState → EngineState × List (List ApiMessage)
  | 0, _, st => (st, [])
  | gas + 1, retryCount, st =>
    if retryCount ≤ rs.maxRetries then
      let apiMessages := buildApiMessages st.svc.store cid model prompt
      let outcome := oracle retryCount
      let afterTry : EngineState × Option AppError :=
        match outcome with
        | AttemptOutcome.sendError e => (st, some e)
        | AttemptOutcome.stream frags err =>
          let pr := processFragments model.id now frags "" st.records
          let st' := { st with records := pr.2 }
          match err with
          | some e => (st', some e)
          | none =>
            if pr.1 = "" then (st', none)
            else
              ({ st' with
                   svc := addMessageToConversation est cid
                     { role := Role.assistant, content := pr.1, timestamp := now,
                       modelId := some model.id } now st'.svc },
               none)
      match afterTry.2 with
      | none => (afterTry.1, [apiMessages])
      | some e =>
        if shouldRetryError rs e ∧ retryCount < rs.maxRetries then
          let rc := retryCount + 1
          let stR := { afterTry.1 with
                         records := updateRecord afterTry.1.records model.id (fun mc =>
                           { mc with
                               isLoading := true
                               error := some (retryingMessage rc rs.maxRetries)
                               retryCount := rc
                               canRetry := false }) }
          let rec' := runModelTask rs est model prompt now oracle cid gas rc stR
          (rec'.1, apiMessages :: rec'.2)
        else
          let stF := { afterTry.1 with
                         records := updateRecord afterTry.1.records model.id (fun mc =>
                           { mc with
                               isLoading := false
                               error := some e.message
                               retryCount := retryCount
                               canRetry := true
                               lastFailedPrompt := some prompt }) }
          (stF, [apiMessages])
    else (st, [])

/-- One step of `sendPromptToModels`' dispatch over the target models: run
this model's task from the accumulated state and record its outbound
attempts. -/
def sendStep (rs : RetrySettings) (est : List Conversation → Nat) (prompt : PromptData)
    (now : Nat) (oracle : String → Nat → AttemptOutcome) (currentActiveId : String)
    (acc : EngineState × List (AIModel × List (List ApiMessage))) (model : AIModel) :
    EngineState × List (AIModel × List (List ApiMessage)) :=
  let r := runModelTask rs est model prompt now (oracle model.id) currentActiveId
    (rs.maxRetries + 1) 0 acc.1
  (r.1, acc.2 ++ [(model, r.2)])

/-- `sendPromptToModels`: guard on the active conversation, resolve retry
settings, run every target model's task (sequentially in this embedding),
then refresh the hook's conversation list.  Returns, per model, the
outbound message lists of its attempts. -/
def sendPromptToModels (rsOpt : Option RetrySettings) (est : List Conversation → Nat)
    (targetModels : List AIModel) (prompt : PromptData) (now : Nat)
    (oracle : String → Nat → AttemptOutcome) (st : EngineState) :
    EngineState × List (AIModel × List (List ApiMessage)) :=
  match st.hookActiveId with
  | none => ({ st with hookError := some "No active conversation" }, [])
  | some currentActiveId =>
    let rs := rsOpt.getD defaultRetrySettings
    let res := targetModels.foldl (sendStep rs est prompt now oracle currentActiveId) (st, [])
    ({ res.1 with allConversations := res.1.svc.store }, res.2)

/-- `sendPromptToEnabledModels` (the engine's `submitPrompt`): create a
conversation when none is active, durably append the user message once, push
it into every enabled model's record, then dispatch. -/
def sendPromptToEnabledModels (models : List AIModel) (rsOpt : Option RetrySettings)
    (est : List Conversation → Nat) (prompt : PromptData) (freshId : String) (now : Nat)
    (oracle : String → Nat → AttemptOutcome) (st : EngineState) :
    EngineState × List (AIModel × List (List ApiMessage)) :=
  let activeModels := models.filter (fun m => m.isEnabled)
  if activeModels.isEmpty then
    ({ st with hookError := some "No models are enabled" }, [])
  else
    let p : String × EngineState :=
      match st.hookActiveId with
      | some cid => (cid, st)
      | none =>
        let q := createConversation est freshId now (some prompt.text) st.svc
        (q.1.id, { st with
                     svc := q.2
                     hookActiveId := some q.1.id
                     allConversations := q.2.store })
    let currentActiveId := p.1
    let st1 := p.2
    let userMessage : ChatMessage :=
      { role := Role.user, content := prompt.text, timestamp := now, modelId := none }
    let st2 := { st1 with
                   svc := addMessageToConversation est currentActiveId userMessage now st1.svc }
    let st3 := { st2 with
                   records := fun id =>
                     if activeModels.any (fun m => m.id = id) then
                       (st2.records id).map (fun mc =>
                         { mc with
                             messages := mc.messages ++ [userMessage]
                             isLoading := true
                             error := none
                             canRetry := false
                             retryCount := 0 })
                     else st2.records id }
    sendPromptToModels rsOpt est activeModels prompt now oracle st3

/-- `retryFailedModel`: with a recorded last-failed prompt and an enabled
model, clear the error/retry state and re-invoke the single-model send. -/
def retryFailedModel (models : List AIModel) (rsOpt : Option RetrySettings)
    (est : List Conversation → Nat) (modelId : String) (now : Nat)
    (oracle : String → Nat → AttemptOutcome) (st : EngineState) :
    EngineState × List (AIModel × List (List ApiMessage)) :=
  match st.records modelId with
  | none => (st, [])
  | some conversation =>
    match conversation.lastFailedPrompt with
    | none => (st, [])
    | some prompt =>
      match models.find? (fun m => decide (m.id = modelId)) with
      | none => (st, [])
      | some model =>
        if !model.isEnabled then (st, [])
        else
          let st' := { st with
                         records := updateRecord st.records modelId (fun mc =>
                           { mc with
                               isLoading := true
                               error := none
                               canRetry := false
                               retryCount := 0 }) }
          sendPromptToModels rsOpt est [model] prompt now oracle st'

/-- Hook `clearConversation(modelId)`: empty that model's in-memory message
list and clear its error; nothing else is touched. -/
def hookClearConversation (modelId : String) (st : EngineState) : EngineState :=
  { st with
      records := fun id =>
        if id = modelId then
          some (match st.records modelId with
                | some mc => { mc with messages := [], error := none }
                | none =>
                  { modelId := modelId, messages := [], isLoading := false })
        else st.records id }

/-- Hook `createNewConversation`: create and activate a fresh conversation
and empty every model's rendered message list. -/
def createNewConversation (est : List Conversation → Nat) (freshId : String) (now : Nat)
    (st : EngineState) : EngineState :=
  let q := createConversation est freshId now none st.svc
  { st with
      svc := q.2
      hookActiveId := some q.1.id
      allConversations := q.2.store
      records := fun id =>
        (st.records id).map (fun mc =>
          { mc with messages := [], error := none, isLoading := false }) }

/-- Hook `deleteConversation`: delete from the service, refresh the list,
and when the active conversation was deleted, create a new one. -/
def hookDeleteConversation (est : List Conversation → Nat) (freshId : String) (now : Nat)
    (conversationId : String) (st : EngineState) : EngineState :=
  let svc' := svcDeleteConversation conversationId st.svc
  let st' := { st with svc := svc', allConversations := svc'.store }
  if st.hookActiveId = some conversationId then
    createNewConversation est freshId now st'
  else st'

/-! ### Concrete fixtures used by closed evaluations and witnesses -/

/-- A trivial storage estimate (never above the 5MB limit). -/
def est0 : List Conversation → Nat := fun _ => 0

def modelAlpha : AIModel :=
  { id := "alpha", name := "alpha", isEnabled := true, useHistory := false }

def mc0 : ModelConversation :=
  { modelId := "alpha", messages := [], isLoading := false }

def recs0 : ModelRecord := fun id => if id = "alpha" then some mc0 else none

def conv0 : Conversation :=
  { id := "c1", title := "t", createdAt := 0, updatedAt := 0, messages := [], modelIds := [] }

def st0 : EngineState :=
  { records := recs0
    svc := { store := [conv0], activeId := some "c1" }
    hookActiveId := some "c1"
    allConversations := [conv0]
    hookError := none }

/-- RetrySettings of the P4 scenario: gate on model errors, two retries. -/
def rsGate : RetrySettings :=
  { enabled := true, maxRetries := 2, retryDelay := 1000,
    retryStrategy := RetryStrategy.fixed, retryOnlyModelErrors := true }

/-- The mid-stream model-availability message thrown by
`parseStreamingResponse` (lm-studio-repo.ts line 202). -/
def midStreamUnloadedMsg : String :=
  "Model unloaded during response. Please reload the model in LM Studio."

/-- The send-time model-availability message thrown by `sendMessage`
(lm-studio-repo.ts line 121). -/
def sendUnavailableMsg : String :=
  "Model \"alpha\" is not loaded. Please load the model in LM Studio first."

def oracleMidStreamUnloaded : Nat → AttemptOutcome := fun _ =>
  AttemptOutcome.stream [] (some (AppError.configurationError midStreamUnloadedMsg))

def oracleNetwork : Nat → AttemptOutcome := fun _ =>
  AttemptOutcome.sendError (AppError.networkError "Failed to send message: HTTP 500")

def oracleSendUnavailable : Nat → AttemptOutcome := fun _ =>
  AttemptOutcome.sendError (AppError.configurationError sendUnavailableMsg)

/-! ### C7 — retry delay arithmetic -/

/-- C7: the computed retry delay is `d * 2 ^ attempt` for the exponential
strategy, `d` for fixed, `0` for immediate; in particular the base delay
2000 yields `2000 * 2 ^ attempt`. -/
theorem C7_retry_delay_arithmetic (enabled : Bool) (maxR d : Nat) (roe : Bool) (attempt : Nat) :
    getRetryDelay
        { enabled := enabled, maxRetries := maxR, retryDelay := d,
          retryStrategy := RetryStrategy.exponential, retryOnlyModelErrors := roe } attempt
      = d * 2 ^ attempt ∧
    getRetryDelay
        { enabled := enabled, maxRetries := maxR, retryDelay := d,
          retryStrategy := RetryStrategy.fixed, retryOnlyModelErrors := roe } attempt = d ∧
    getRetryDelay
        { enabled := enabled, maxRetries := maxR, retryDelay := d,
          retryStrategy := RetryStrategy.immediate, retryOnlyModelErrors := roe } attempt = 0 ∧
    getRetryDelay
        { enabled := enabled, maxRetries := maxR, retryDelay := 2000,
          retryStrategy := RetryStrategy.exponential, retryOnlyModelErrors := roe } attempt
      = 2000 * 2 ^ attempt :=
  ⟨rfl, rfl, rfl, rfl⟩

/-! ### C9 — conversation title derivation -/

theorem strTake_length (s : String) (n : Nat) : strLength (strTake s n) = min n (strLength s) := by
  cases s with
  | mk data => simp [strTake, strLength]

theorem strTake_of_length_le (s : String) (n : Nat) (h : strLength s ≤ n) : strTake s n = s := by
  cases s with
  | mk data =>
    simp only [strTake, strLength] at *
    rw [List.take_of_length_le h]

/-- A 50-character prompt. -/
def fiftyChars : String := ⟨List.replicate 50 'a'⟩

/-- C9 counterexample: a prompt of exactly 50 characters (not longer than
50) still gets the ellipsis appended rather than being used unmodified. -/
theorem C9_counterexample :
    strLength fiftyChars = 50 ∧
    strTrim fiftyChars = fiftyChars ∧
    generateTitle fiftyChars = fiftyChars ++ "..." ∧
    ¬ generateTitle fiftyChars = fiftyChars := by
  refine ⟨by decide, by decide, by decide, by decide⟩

/-- C9 amended: when a prompt with non-empty text seeds the conversation,
the title is the trimmed prompt truncated to its first 50 characters, with
an ellipsis appended exactly when the trimmed prompt has at least 50
characters (so a trimmed prompt of 49 or fewer characters is used
unmodified, and one of exactly 50 characters gets the ellipsis even though
nothing was cut); an empty prompt text is falsy, so the conversation is
titled "New Conversation" instead. -/
theorem C9_amended_title_rule (p : String) :
    (generateTitle p =
      if 50 ≤ strLength (strTrim p) then strTake (strTrim p) 50 ++ "..." else strTrim p) ∧
    (∀ (est : List Conversation → Nat) (freshId : String) (now : Nat) (s : ServiceState),
      (createConversation est freshId now (some p) s).1.title =
        if p = "" then "New Conversation" else generateTitle p) := by
  constructor
  · by_cases h : 50 ≤ strLength (strTrim p)
    · have h50 : strLength (strTake (strTrim p) 50) = 50 := by
        rw [strTake_length]; omega
      simp [generateTitle, h50, h]
    · have hlen : strLength (strTake (strTrim p) 50) = strLength (strTrim p) := by
        rw [strTake_length]; omega
      have heq : strTake (strTrim p) 50 = strTrim p :=
        strTake_of_length_le _ _ (by omega)
      have hne : ¬ strLength (strTrim p) = 50 := by omega
      simp [generateTitle, heq, hne, h]
  · intro est freshId now s
    rfl

/-! ### C2 — retry gating (P4) -/

/-- C2: with `retryOnlyModelErrors = true` and `maxRetries = 2`, a `Network`
failure goes straight to Failed with `retryCount = 0`, `canRetry = true`
after a single attempt, and a send-time model-availability failure is
retried twice before Failed — but a mid-stream model-availability failure
("Model unloaded during response...") is NOT retried: its message lacks the
substring "not loaded" that `shouldRetryError` demands, so the task fails
immediately with `retryCount = 0`, contradicting the claim (and the
repository's own fix guide). -/
theorem C2_retry_gating_evaluation :
    ((runModelTask rsGate est0 modelAlpha { text := "hi" } 5 oracleNetwork "c1" 3 0 st0).1.records
        "alpha" =
      some { mc0 with
               isLoading := false
               error := some "Failed to send message: HTTP 500"
               retryCount := 0
               canRetry := true
               lastFailedPrompt := some { text := "hi" } } ∧
     (runModelTask rsGate est0 modelAlpha { text := "hi" } 5 oracleNetwork "c1" 3 0 st0).2.length
       = 1) ∧
    ((runModelTask rsGate est0 modelAlpha { text := "hi" } 5 oracleSendUnavailable "c1" 3 0
          st0).1.records "alpha" =
      some { mc0 with
               isLoading := false
               error := some sendUnavailableMsg
               retryCount := 2
               canRetry := true
               lastFailedPrompt := some { text := "hi" } } ∧
     (runModelTask rsGate est0 modelAlpha { text := "hi" } 5 oracleSendUnavailable "c1" 3 0
         st0).2.length = 3) ∧
    ((runModelTask rsGate est0 modelAlpha { text := "hi" } 5 oracleMidStreamUnloaded "c1" 3 0
          st0).1.records "alpha" =
      some { mc0 with
               isLoading := false
               error := some midStreamUnloadedMsg
               retryCount := 0
               canRetry := true
               lastFailedPrompt := some { text := "hi" } } ∧
     (runModelTask rsGate est0 modelAlpha { text := "hi" } 5 oracleMidStreamUnloaded "c1" 3 0
         st0).2.length = 1) ∧
    shouldRetryError rsGate (AppError.configurationError midStreamUnloadedMsg) = false ∧
    shouldRetryError rsGate (AppError.configurationError sendUnavailableMsg) = true := by
  refine ⟨⟨by decide, by decide⟩, ⟨by decide, by decide⟩, ⟨by decide, by decide⟩, by decide,
    by decide⟩

/-! ### C1 — manual retry re-enters the automatic-retry machinery -/

def promptHi : PromptData := { text := "hi" }

def mcFailed : ModelConversation :=
  { mc0 with error := some "boom", canRetry := true, lastFailedPrompt := some promptHi }

def recsFailed : ModelRecord := fun id => if id = "alpha" then some mcFailed else none

def stFailed : EngineState := { st0 with records := recsFailed }

/-- C1 counterexample: a manual retry of a model whose transport keeps
rejecting with a send-time model-availability error performs three attempts
(one send plus two automatic retries driven by RetrySettings), not exactly
one, and leaves `retryCount = 2`. -/
theorem C1_counterexample :
    ((retryFailedModel [modelAlpha] (some rsGate) est0 "alpha" 5
        (fun _ _ => AttemptOutcome.sendError (AppError.configurationError sendUnavailableMsg))
        stFailed).2.map (fun q => q.2.length)) = [3] ∧
    ((retryFailedModel [modelAlpha] (some rsGate) est0 "alpha" 5
        (fun _ _ => AttemptOutcome.sendError (AppError.configurationError sendUnavailableMsg))
        stFailed).1.records "alpha").map (fun mc => mc.retryCount) = some 2 ∧
    ¬ (3 : Nat) = 1 := by
  refine ⟨by decide, by decide, by decide⟩

theorem runModelTask_attempts_le (rs : RetrySettings) (est : List Conversation → Nat)
    (model : AIModel) (prompt : PromptData) (now : Nat) (oracle : Nat → AttemptOutcome)
    (cid : String) :
    ∀ (gas rc : Nat) (st : EngineState),
      (runModelTask rs est model prompt now oracle cid gas rc st).2.length ≤ gas := by
  intro gas
  induction gas with
  | zero => intro rc st; simp [runModelTask]
  | succ g ih =>
    intro rc st
    simp only [runModelTask]
    split
    · split
      · simp
      · split
        · simpa using Nat.succ_le_succ (ih _ _)
        · simp
    · simp

theorem runModelTask_attempts_pos (rs : RetrySettings) (est : List Conversation → Nat)
    (model : AIModel) (prompt : PromptData) (now : Nat) (oracle : Nat → AttemptOutcome)
    (cid : String) (gas rc : Nat) (st : EngineState) (hrc : rc ≤ rs.maxRetries) :
    1 ≤ (runModelTask rs est model prompt now oracle cid (gas + 1) rc st).2.length := by
  simp only [runModelTask]
  rw [if_pos hrc]
  split
  · simp
  · split
    · simp
    · simp

/-- C1 amended: `retryFailedModel` re-invokes the standard single-model send
path (after clearing the error/retry state), and that path does consult
RetrySettings' automatic-retry gate — a manual retry performs between 1 and
`maxRetries + 1` attempts per invocation. -/
theorem C1_amended_manual_retry_reenters_send
    (models : List AIModel) (rsOpt : Option RetrySettings) (est : List Conversation → Nat)
    (modelId : String) (now : Nat) (oracle : String → Nat → AttemptOutcome) (st : EngineState)
    (conversation : ModelConversation) (prompt : PromptData) (model : AIModel) (cid : String)
    (h1 : st.records modelId = some conversation)
    (h2 : conversation.lastFailedPrompt = some prompt)
    (h3 : models.find? (fun m => decide (m.id = modelId)) = some model)
    (h4 : model.isEnabled = true)
    (h5 : st.hookActiveId = some cid) :
    retryFailedModel models rsOpt est modelId now oracle st =
      sendPromptToModels rsOpt est [model] prompt now oracle
        { st with
            records := updateRecord st.records modelId (fun mc =>
              { mc with isLoading := true, error := none, canRetry := false,
                        retryCount := 0 }) } ∧
    ∃ attempts,
      (retryFailedModel models rsOpt est modelId now oracle st).2 = [(model, attempts)] ∧
      1 ≤ attempts.length ∧
      attempts.length ≤ (rsOpt.getD defaultRetrySettings).maxRetries + 1 := by
  have heq : retryFailedModel models rsOpt est modelId now oracle st =
      sendPromptToModels rsOpt est [model] prompt now oracle
        { st with
            records := updateRecord st.records modelId (fun mc =>
              { mc with isLoading := true, error := none, canRetry := false,
                        retryCount := 0 }) } := by
    simp [retryFailedModel, h1, h2, h3, h4]
  refine ⟨heq, ?_⟩
  rw [heq]
  simp only [sendPromptToModels, sendStep, h5, List.foldl_cons, List.foldl_nil,
    List.nil_append]
  refine ⟨_, rfl, ?_, ?_⟩
  · exact runModelTask_attempts_pos _ _ _ _ _ _ _ _ _ _ (Nat.zero_le _)
  · exact runModelTask_attempts_le _ _ _ _ _ _ _ _ _ _

/-- C1 witness: the amended statement applied to the concrete failed state
used by the counterexample. -/
theorem C1_amended_witness :
    stFailed.records "alpha" = some mcFailed ∧
    mcFailed.lastFailedPrompt = some promptHi ∧
    [modelAlpha].find? (fun m => decide (m.id = "alpha")) = some modelAlpha ∧
    modelAlpha.isEnabled = true ∧
    stFailed.hookActiveId = some "c1" ∧
    (retryFailedModel [modelAlpha] (some rsGate) est0 "alpha" 5
        (fun _ _ => AttemptOutcome.sendError (AppError.configurationError sendUnavailableMsg))
        stFailed =
      sendPromptToModels (some rsGate) est0 [modelAlpha] promptHi 5
        (fun _ _ => AttemptOutcome.sendError (AppError.configurationError sendUnavailableMsg))
        { stFailed with
            records := updateRecord stFailed.records "alpha" (fun mc =>
              { mc with isLoading := true, error := none, canRetry := false,
                        retryCount := 0 }) } ∧
    ∃ attempts,
      (retryFailedModel [modelAlpha] (some rsGate) est0 "alpha" 5
          (fun _ _ => AttemptOutcome.sendError (AppError.configurationError sendUnavailableMsg))
          stFailed).2 = [(modelAlpha, attempts)] ∧
      1 ≤ attempts.length ∧
      attempts.length ≤ ((some rsGate).getD defaultRetrySettings).maxRetries + 1) :=
  ⟨by decide, by decide, by decide, by decide, by decide,
   C1_amended_manual_retry_reenters_send [modelAlpha] (some rsGate) est0 "alpha" 5
     (fun _ _ => AttemptOutcome.sendError (AppError.configurationError sendUnavailableMsg))
     stFailed mcFailed promptHi modelAlpha "c1"
     (by decide) (by decide) (by decide) (by decide) (by decide)⟩

/-! ### Storage-cleanup helper lemmas -/

theorem cleanupCount_noop (l : List Conversation) (s : ServiceState)
    (h : l.length ≤ maxConversations) : cleanupCount l s = (l, s) := by
  cases l with
  | nil => rfl
  | cons c rest =>
    unfold cleanupCount
    rw [if_neg (Nat.not_lt.mpr h)]

theorem cleanupSize_noop (est : List Conversation → Nat) (l : List Conversation)
    (s : ServiceState) (h : est s.store ≤ maxStorageSize) : cleanupSize est l s = (l, s) := by
  cases l with
  | nil => rfl
  | cons c rest =>
    cases rest with
    | nil => rfl
    | cons c' rest' =>
      unfold cleanupSize
      rw [if_neg (Nat.not_lt.mpr h)]

theorem cleanupOld_noop (est : List Conversation → Nat) (s : ServiceState)
    (hlen : s.store.length ≤ maxConversations) (hest : est s.store ≤ maxStorageSize) :
    cleanupOldConversations est s = s := by
  simp only [cleanupOldConversations]
  rw [cleanupCount_noop _ _ (by rw [List.length_insertionSort]; exact hlen)]
  rw [cleanupSize_noop _ _ _ hest]

/-- When no stored conversation carries the new id, replace-or-push is a
push at the end. -/
theorem upsert_eq_append (c : Conversation) (l : List Conversation)
    (h : ∀ d ∈ l, ¬ d.id = c.id) : upsert c l = l ++ [c] := by
  induction l with
  | nil => rfl
  | cons d ds ih =>
    have hd : ¬ d.id = c.id := h d (List.mem_cons_self d ds)
    simp only [upsert, if_neg hd, List.cons_append, List.cons.injEq, true_and]
    exact ih (fun e he => h e (List.mem_cons_of_mem d he))

theorem length_filter_lt_of_mem {α : Type} (p : α → Bool) (l : List α) (x : α)
    (hx : x ∈ l) (hpx : p x = false) : (l.filter p).length < l.length := by
  induction l with
  | nil => cases hx
  | cons a as ih =>
    rcases List.mem_cons.mp hx with h | h
    · subst h
      simp only [List.filter_cons, hpx]
      exact Nat.lt_succ_of_le (List.length_filter_le p as)
    · by_cases hp : p a
      · simp only [List.filter_cons, hp, if_pos]
        exact Nat.succ_lt_succ (ih h)
      · simp only [List.filter_cons, Bool.not_eq_true] at hp ⊢
        rw [hp]
        exact Nat.lt_succ_of_lt (ih h)

/-- The store written by the service-level delete is the filtered list,
whatever happens to the active pointer. -/
theorem svcDelete_store (id : String) (s : ServiceState) :
    (svcDeleteConversation id s).store =
      s.store.filter (fun conv => decide ¬(conv.id = id)) := by
  simp only [svcDeleteConversation]
  split
  · split <;> rfl
  · rfl

/-- Behaviour of `createConversation` on a state that has room and does not
already use the fresh id. -/
theorem createConversation_spec (est : List Conversation → Nat) (freshId : String)
    (now : Nat) (init : Option String) (s : ServiceState)
    (hest : ∀ l, est l ≤ maxStorageSize)
    (hlen : s.store.length + 1 ≤ maxConversations)
    (hfresh : ∀ d ∈ s.store, ¬ d.id = freshId) :
    createConversation est freshId now init s =
      ({ id := freshId
         title := match init with
                  | some m => if m = "" then "New Conversation" else generateTitle m
                  | none => "New Conversation"
         createdAt := now, updatedAt := now, messages := [], modelIds := [] },
       { store := s.store ++
           [{ id := freshId
              title := match init with
                       | some m => if m = "" then "New Conversation" else generateTitle m
                       | none => "New Conversation"
              createdAt := now, updatedAt := now, messages := [], modelIds := [] }]
         activeId := some freshId }) := by
  simp only [createConversation, saveConversation]
  rw [upsert_eq_append _ _ hfresh]
  rw [cleanupOld_noop _ _ (by simpa using hlen) (hest _)]

/-! ### C3 — deleting the active conversation -/

def convA3 : Conversation :=
  { id := "a", title := "A", createdAt := 0, updatedAt := 10, messages := [], modelIds := [] }

def convB3 : Conversation :=
  { id := "b", title := "B", createdAt := 0, updatedAt := 99, messages := [], modelIds := [] }

def stDel : EngineState :=
  { records := recs0
    svc := { store := [convA3, convB3], activeId := some "a" }
    hookActiveId := some "a"
    allConversations := [convA3, convB3]
    hookError := none }

/-- C3 counterexample: deleting the active conversation "a" while the
more-recently-updated "b" remains does not activate "b" — the engine always
creates and activates a fresh conversation. -/
theorem C3_counterexample :
    (hookDeleteConversation est0 "fresh" 7 "a" stDel).hookActiveId = some "fresh" ∧
    convB3 ∈ (hookDeleteConversation est0 "fresh" 7 "a" stDel).svc.store ∧
    (∀ c ∈ (hookDeleteConversation est0 "fresh" 7 "a" stDel).svc.store,
      c.updatedAt ≤ convB3.updatedAt) ∧
    ¬ (hookDeleteConversation est0 "fresh" 7 "a" stDel).hookActiveId = some convB3.id := by
  refine ⟨by decide, by decide, by decide, by decide⟩

/-- C3 amended: deleting the active conversation always creates a fresh
empty conversation and makes it the single active one (hook and storage
pointers agree), whether or not other conversations remain; the other
conversations survive and the deleted id is gone.  The most-recently-updated
remaining conversation is not selected. -/
theorem C3_amended_delete_active_creates_fresh
    (est : List Conversation → Nat) (freshId : String) (now : Nat) (cid : String)
    (st : EngineState) (convActive : Conversation)
    (hest : ∀ l, est l ≤ maxStorageSize)
    (hlen : st.svc.store.length ≤ maxConversations)
    (hactive : st.hookActiveId = some cid)
    (hmem : convActive ∈ st.svc.store) (hid : convActive.id = cid)
    (hfresh : ∀ c ∈ st.svc.store, ¬ c.id = freshId) :
    (hookDeleteConversation est freshId now cid st).hookActiveId = some freshId ∧
    (hookDeleteConversation est freshId now cid st).svc.activeId = some freshId ∧
    (hookDeleteConversation est freshId now cid st).svc.store =
      st.svc.store.filter (fun conv => decide ¬(conv.id = cid)) ++
        [{ id := freshId, title := "New Conversation", createdAt := now, updatedAt := now,
           messages := [], modelIds := [] }] ∧
    (∃ convNew,
      (hookDeleteConversation est freshId now cid st).svc.store.find?
          (fun conv => decide (conv.id = freshId)) = some convNew ∧
      convNew.messages = []) ∧
    (∀ c ∈ (hookDeleteConversation est freshId now cid st).svc.store, ¬ c.id = cid) := by
  have hne : ¬ cid = freshId := by
    intro h
    exact hfresh convActive hmem (h ▸ hid)
  have hstep : hookDeleteConversation est freshId now cid st =
      createNewConversation est freshId now
        { st with
            svc := svcDeleteConversation cid st.svc
            allConversations := (svcDeleteConversation cid st.svc).store } := by
    simp only [hookDeleteConversation, hactive, if_pos]
  have hfilterlen :
      (st.svc.store.filter (fun conv => decide ¬(conv.id = cid))).length + 1 ≤
        maxConversations := by
    have : (st.svc.store.filter (fun conv => decide ¬(conv.id = cid))).length <
        st.svc.store.length := by
      refine length_filter_lt_of_mem _ _ convActive hmem ?_
      simp [hid]
    omega
  have hfresh' : ∀ d ∈ (svcDeleteConversation cid st.svc).store, ¬ d.id = freshId := by
    intro d hd
    rw [svcDelete_store] at hd
    exact hfresh d (List.mem_of_mem_filter hd)
  have hcreate := createConversation_spec est freshId now none
      (svcDeleteConversation cid st.svc) hest
      (by rw [svcDelete_store]; exact hfilterlen) hfresh'
  rw [hstep]
  simp only [createNewConversation, hcreate, svcDelete_store]
  refine ⟨trivial, trivial, trivial, ?_, ?_⟩
  · refine ⟨Conversation.mk freshId "New Conversation" now now [] [], ?_, ?_⟩
    · rw [List.find?_append]
      have hnone :
          (st.svc.store.filter (fun conv => decide ¬(conv.id = cid))).find?
              (fun conv => decide (conv.id = freshId)) = none := by
        rw [List.find?_eq_none]
        intro d hd
        simpa using hfresh d (List.mem_of_mem_filter hd)
      rw [hnone]
      simp
    · rfl
  · intro c hc
    rcases List.mem_append.mp hc with h | h
    · have := List.of_mem_filter h
      simpa using this
    · rcases List.mem_singleton.mp h with rfl
      simpa using fun h => hne h.symm

/-- C3 witness: the amended statement applied to the two-conversation state
of the counterexample. -/
theorem C3_amended_witness :
    (∀ l, est0 l ≤ maxStorageSize) ∧
    stDel.svc.store.length ≤ maxConversations ∧
    stDel.hookActiveId = some "a" ∧
    convA3 ∈ stDel.svc.store ∧
    convA3.id = "a" ∧
    (∀ c ∈ stDel.svc.store, ¬ c.id = "fresh") ∧
    ((hookDeleteConversation est0 "fresh" 7 "a" stDel).hookActiveId = some "fresh" ∧
     (hookDeleteConversation est0 "fresh" 7 "a" stDel).svc.activeId = some "fresh" ∧
     (hookDeleteConversation est0 "fresh" 7 "a" stDel).svc.store =
       stDel.svc.store.filter (fun conv => decide ¬(conv.id = "a")) ++
         [{ id := "fresh", title := "New Conversation", createdAt := 7, updatedAt := 7,
            messages := [], modelIds := [] }] ∧
     (∃ convNew,
       (hookDeleteConversation est0 "fresh" 7 "a" stDel).svc.store.find?
           (fun conv => decide (conv.id = "fresh")) = some convNew ∧
       convNew.messages = []) ∧
     (∀ c ∈ (hookDeleteConversation est0 "fresh" 7 "a" stDel).svc.store, ¬ c.id = "a")) :=
  ⟨fun _ => Nat.zero_le _, by decide, by decide, by decide, by decide, by decide,
   C3_amended_delete_active_creates_fresh est0 "fresh" 7 "a" stDel convA3
     (fun _ => Nat.zero_le _) (by decide) (by decide) (by decide) (by decide) (by decide)⟩

/-! ### C8 — clearConversation does not re-derive projections -/

def userMsgHi : ChatMessage :=
  { role := Role.user, content := "hi", timestamp := 1, modelId := none }

def convC8 : Conversation :=
  { id := "c1", title := "t", createdAt := 0, updatedAt := 1, messages := [userMsgHi],
    modelIds := [] }

def stC8 : EngineState :=
  { records := fun id => if id = "alpha" then some { mc0 with messages := [userMsgHi] } else none
    svc := { store := [convC8], activeId := some "c1" }
    hookActiveId := some "c1"
    allConversations := [convC8]
    hookError := none }

/-- C8 counterexample: after `clearConversation("alpha")` the model's
in-memory projection is empty while the filter of the durable active
conversation still contains the user message, so the projection is not
re-derived from the durable sequence. -/
theorem C8_counterexample :
    ((hookClearConversation "alpha" stC8).records "alpha").map (fun mc => mc.messages)
      = some [] ∧
    modelProjection convC8.messages "alpha" = [userMsgHi] ∧
    (hookClearConversation "alpha" stC8).svc.store = [convC8] ∧
    ¬ ((hookClearConversation "alpha" stC8).records "alpha").map (fun mc => mc.messages)
        = some (modelProjection convC8.messages "alpha") := by
  refine ⟨by decide, by decide, by decide, by decide⟩

/-- C8 amended: `clearConversation(modelId)` only empties the named model's
in-memory message list (clearing its error); the durable service state, the
active pointer and every other model's projection are untouched, and no
re-derivation from the durable message sequence happens. -/
theorem C8_amended_clear_is_local (modelId : String) (st : EngineState)
    (mc : ModelConversation) (h : st.records modelId = some mc) :
    (hookClearConversation modelId st).svc = st.svc ∧
    (hookClearConversation modelId st).hookActiveId = st.hookActiveId ∧
    (hookClearConversation modelId st).records modelId =
      some { mc with messages := [], error := none } ∧
    (∀ id, ¬ id = modelId → (hookClearConversation modelId st).records id = st.records id) := by
  refine ⟨rfl, rfl, ?_, ?_⟩
  · simp [hookClearConversation, h]
  · intro id hid
    simp [hookClearConversation, hid]

/-- C8 witness: the amended statement applied to the counterexample's
state. -/
theorem C8_amended_witness :
    stC8.records "alpha" = some { mc0 with messages := [userMsgHi] } ∧
    ((hookClearConversation "alpha" stC8).svc = stC8.svc ∧
     (hookClearConversation "alpha" stC8).hookActiveId = stC8.hookActiveId ∧
     (hookClearConversation "alpha" stC8).records "alpha" =
       some { mc0 with messages := ([] : List ChatMessage), error := none } ∧
     (∀ id, ¬ id = "alpha" → (hookClearConversation "alpha" stC8).records id
        = stC8.records id)) :=
  ⟨by decide,
   C8_amended_clear_is_local "alpha" stC8 { mc0 with messages := [userMsgHi] } (by decide)⟩

/-! ### C4 — monotonic streaming reconciliation -/

/-- Concatenation of a fragment sequence, in delivery order. -/
def concatFragments (l : List String) : String := l.foldl (fun a b => a ++ b) ""

/-- The trailing message is an in-progress assistant message owned by the
given model. -/
def trailingIsOwnAssistant (messages : List ChatMessage) (modelId : String) : Prop :=
  ∃ last, messages.getLast? = some last ∧ last.role = Role.assistant ∧
    last.modelId = some modelId

theorem chunkUpdate_apply_self (modelId : String) (now : Nat) (buf : String)
    (recs : ModelRecord) (mc : ModelConversation) (h : recs modelId = some mc) :
    chunkUpdate modelId now buf recs modelId =
      some { mc with
               messages := chunkUpdateMessages modelId now buf mc.messages
               isLoading := false, error := none, canRetry := false, retryCount := 0 } := by
  simp [chunkUpdate, h]

theorem chunkUpdateMessages_getLast (modelId : String) (now : Nat) (buf : String)
    (messages : List ChatMessage) :
    ∃ last, (chunkUpdateMessages modelId now buf messages).getLast? = some last ∧
      last.role = Role.assistant ∧ last.modelId = some modelId ∧ last.content = buf := by
  cases hl : messages.getLast? with
  | none =>
    refine ⟨{ role := Role.assistant, content := buf, timestamp := now,
              modelId := some modelId }, ?_, rfl, rfl, rfl⟩
    simp [chunkUpdateMessages, hl, List.getLast?_concat]
  | some last =>
    by_cases hc : last.role = Role.assistant ∧ last.modelId = some modelId
    · refine ⟨{ last with content := buf }, ?_, hc.1, hc.2, rfl⟩
      simp [chunkUpdateMessages, hl, hc.1, hc.2, List.getLast?_concat]
    · refine ⟨{ role := Role.assistant, content := buf, timestamp := now,
                modelId := some modelId }, ?_, rfl, rfl, rfl⟩
      simp [chunkUpdateMessages, hl, hc, List.getLast?_concat]

theorem processFragments_fst (modelId : String) (now : Nat) :
    ∀ (frags : List String) (buf : String) (recs : ModelRecord),
      (processFragments modelId now frags buf recs).1 =
        frags.foldl (fun a f => a ++ f) buf := by
  intro frags
  induction frags with
  | nil => intro buf recs; rfl
  | cons f fs ih =>
    intro buf recs
    simpa [processFragments, List.foldl_cons] using ih (buf ++ f) _

theorem processFragments_some (modelId : String) (now : Nat) :
    ∀ (frags : List String) (buf : String) (recs : ModelRecord) (mc : ModelConversation),
      recs modelId = some mc →
      ∃ mc', (processFragments modelId now frags buf recs).2 modelId = some mc' := by
  intro frags
  induction frags with
  | nil => exact fun buf recs mc h => ⟨mc, h⟩
  | cons f fs ih =>
    intro buf recs mc h
    exact ih (buf ++ f) _ _ (chunkUpdate_apply_self modelId now (buf ++ f) recs mc h)

theorem processFragments_concat (modelId : String) (now : Nat) (fs : List String)
    (f : String) (buf : String) (recs : ModelRecord) :
    processFragments modelId now (fs ++ [f]) buf recs =
      ((processFragments modelId now fs buf recs).1 ++ f,
       chunkUpdate modelId now ((processFragments modelId now fs buf recs).1 ++ f)
         (processFragments modelId now fs buf recs).2) := by
  simp [processFragments, List.foldl_append]

theorem processFragments_trailing (modelId : String) (now : Nat) (frags : List String)
    (buf : String) (recs : ModelRecord) (mc : ModelConversation)
    (h : recs modelId = some mc) (hne : frags ≠ []) :
    ∃ mc' last,
      (processFragments modelId now frags buf recs).2 modelId = some mc' ∧
      mc'.messages.getLast? = some last ∧
      last.role = Role.assistant ∧
      last.modelId = some modelId ∧
      last.content = (processFragments modelId now frags buf recs).1 := by
  rcases (frags.eq_nil_or_concat).resolve_left hne with ⟨fs, f, rfl⟩
  rw [List.concat_eq_append] at *
  rcases processFragments_some modelId now fs buf recs mc h with ⟨mcp, hmcp⟩
  rcases chunkUpdateMessages_getLast modelId now
      ((processFragments modelId now fs buf recs).1 ++ f) mcp.messages with
    ⟨last, hlast, hrole, hmid, hcontent⟩
  refine ⟨{ mcp with
              messages := chunkUpdateMessages modelId now
                ((processFragments modelId now fs buf recs).1 ++ f) mcp.messages
              isLoading := false, error := none, canRetry := false, retryCount := 0 },
          last, ?_, hlast, hrole, hmid, ?_⟩
  · rw [processFragments_concat]
    exact chunkUpdate_apply_self modelId now _ _ mcp hmcp
  · rw [processFragments_concat]
    exact hcontent

/-- C4: after each fragment `k` of a finite sequence delivered to one
model's task, the trailing message of that model's state is an assistant
message owned by the model whose content is the concatenation of the first
`k` fragments; one chunk update replaces the trailing own-assistant message
wholesale and appends a new assistant message exactly when the trailing
message is not an own assistant message. -/
theorem C4_monotonic_streaming (modelId : String) (now : Nat) (frags : List String)
    (recs : ModelRecord) (mc : ModelConversation) (h : recs modelId = some mc) :
    (∀ k, 1 ≤ k → k ≤ frags.length →
      ∃ mc' last,
        (processFragments modelId now (frags.take k) "" recs).2 modelId = some mc' ∧
        mc'.messages.getLast? = some last ∧
        last.role = Role.assistant ∧
        last.modelId = some modelId ∧
        last.content = concatFragments (frags.take k)) ∧
    (∀ (buf : String) (msgs : List ChatMessage),
      (∀ last, msgs.getLast? = some last → last.role = Role.assistant →
        last.modelId = some modelId →
        chunkUpdateMessages modelId now buf msgs =
          msgs.dropLast ++ [{ last with content := buf }]) ∧
      (¬ trailingIsOwnAssistant msgs modelId →
        chunkUpdateMessages modelId now buf msgs =
          msgs ++ [{ role := Role.assistant, content := buf, timestamp := now,
                     modelId := some modelId }])) := by
  constructor
  · intro k hk1 hk2
    have htake : frags.take k ≠ [] := by
      refine List.ne_nil_of_length_pos ?_
      rw [List.length_take]
      omega
    rcases processFragments_trailing modelId now (frags.take k) "" recs mc h htake with
      ⟨mc', last, hmc', hlast, hrole, hmid, hcontent⟩
    refine ⟨mc', last, hmc', hlast, hrole, hmid, ?_⟩
    rw [hcontent, processFragments_fst]
    rfl
  · intro buf msgs
    constructor
    · intro last hlast hrole hmid
      simp [chunkUpdateMessages, hlast, hrole, hmid]
    · intro hnot
      cases hl : msgs.getLast? with
      | none => simp [chunkUpdateMessages, hl]
      | some last =>
        have hc : ¬(last.role = Role.assistant ∧ last.modelId = some modelId) := by
          intro hc
          exact hnot ⟨last, hl, hc.1, hc.2⟩
        simp [chunkUpdateMessages, hl, hc]

/-- C4 witness: two fragments delivered to the fixture record. -/
theorem C4_witness :
    recs0 "alpha" = some mc0 ∧
    ((∀ k, 1 ≤ k → k ≤ (["He", "llo"] : List String).length →
      ∃ mc' last,
        (processFragments "alpha" 9 ((["He", "llo"] : List String).take k) "" recs0).2 "alpha"
          = some mc' ∧
        mc'.messages.getLast? = some last ∧
        last.role = Role.assistant ∧
        last.modelId = some "alpha" ∧
        last.content = concatFragments ((["He", "llo"] : List String).take k)) ∧
    (∀ (buf : String) (msgs : List ChatMessage),
      (∀ last, msgs.getLast? = some last → last.role = Role.assistant →
        last.modelId = some "alpha" →
        chunkUpdateMessages "alpha" 9 buf msgs =
          msgs.dropLast ++ [{ last with content := buf }]) ∧
      (¬ trailingIsOwnAssistant msgs "alpha" →
        chunkUpdateMessages "alpha" 9 buf msgs =
          msgs ++ [{ role := Role.assistant, content := buf, timestamp := 9,
                     modelId := some "alpha" }]))) :=
  ⟨by decide, C4_monotonic_streaming "alpha" 9 ["He", "llo"] recs0 mc0 (by decide)⟩

/-! ### C6 — history scoping of the outbound message list -/

/-- C6: with the history flag set the outbound list is the entire stored
message sequence of the active conversation, role-mapped (assistant turns of
every model included); with it unset the outbound list is exactly the single
current user prompt; and each attempt of the per-model task sends exactly
`buildApiMessages` of the store it starts from. -/
theorem C6_history_scoping (store : List Conversation) (cid : String) (model : AIModel)
    (prompt : PromptData) (conv : Conversation)
    (hfind : store.find? (fun c => decide (c.id = cid)) = some conv) :
    (model.useHistory = true →
      buildApiMessages store cid model prompt =
        conv.messages.map (fun msg =>
          { role := roleToString msg.role, content := msg.content })) ∧
    (model.useHistory = false →
      buildApiMessages store cid model prompt = [{ role := "user", content := prompt.text }]) ∧
    (∀ (rs : RetrySettings) (est : List Conversation → Nat) (now : Nat)
        (oracle : Nat → AttemptOutcome) (gas rc : Nat) (st : EngineState),
      rc ≤ rs.maxRetries →
      (runModelTask rs est model prompt now oracle cid (gas + 1) rc st).2.head? =
        some (buildApiMessages st.svc.store cid model prompt)) := by
  refine ⟨?_, ?_, ?_⟩
  · intro hh
    simp [buildApiMessages, getConversationHistory, hfind, hh]
  · intro hh
    simp [buildApiMessages, hh]
  · intro rs est now oracle gas rc st hrc
    simp only [runModelTask]
    rw [if_pos hrc]
    split
    · simp
    · split
      · simp
      · simp

/-- C6 witness: the scoping rules applied to a concrete two-message store
holding another model's assistant turn. -/
theorem C6_witness :
    ([{ convC8 with
          messages := [userMsgHi,
            { role := Role.assistant, content := "yo", timestamp := 2,
              modelId := some "beta" }] }] : List Conversation).find?
        (fun c => decide (c.id = "c1")) =
      some { convC8 with
               messages := [userMsgHi,
                 { role := Role.assistant, content := "yo", timestamp := 2,
                   modelId := some "beta" }] } ∧
    (({ modelAlpha with useHistory := true } : AIModel).useHistory = true →
      buildApiMessages
          [{ convC8 with
               messages := [userMsgHi,
                 { role := Role.assistant, content := "yo", timestamp := 2,
                   modelId := some "beta" }] }] "c1"
          { modelAlpha with useHistory := true } promptHi =
        ([userMsgHi,
          { role := Role.assistant, content := "yo", timestamp := 2,
            modelId := some "beta" }] : List ChatMessage).map (fun msg =>
          { role := roleToString msg.role, content := msg.content })) ∧
    (({ modelAlpha with useHistory := true } : AIModel).useHistory = false →
      buildApiMessages
          [{ convC8 with
               messages := [userMsgHi,
                 { role := Role.assistant, content := "yo", timestamp := 2,
                   modelId := some "beta" }] }] "c1"
          { modelAlpha with useHistory := true } promptHi =
        [{ role := "user", content := promptHi.text }]) ∧
    (∀ (rs : RetrySettings) (est : List Conversation → Nat) (now : Nat)
        (oracle : Nat → AttemptOutcome) (gas rc : Nat) (st : EngineState),
      rc ≤ rs.maxRetries →
      (runModelTask rs est { modelAlpha with useHistory := true } promptHi now oracle "c1"
          (gas + 1) rc st).2.head? =
        some (buildApiMessages st.svc.store "c1" { modelAlpha with useHistory := true }
          promptHi)) :=
  ⟨by decide,
   C6_history_scoping
     [{ convC8 with
          messages := [userMsgHi,
            { role := Role.assistant, content := "yo", timestamp := 2,
              modelId := some "beta" }] }] "c1" { modelAlpha with useHistory := true } promptHi
     { convC8 with
         messages := [userMsgHi,
           { role := Role.assistant, content := "yo", timestamp := 2,
             modelId := some "beta" }] }
     (by decide)⟩

/-! ### C5 — the user message is appended durably, once, before dispatch -/

/-- The user-role turns of a message sequence. -/
def userMessagesOf (messages : List ChatMessage) : List ChatMessage :=
  messages.filter (fun m => decide (m.role = Role.user))

theorem find?_upsert (cid : String) (c : Conversation) (l : List Conversation)
    (hid : c.id = cid) (hfound : (l.find? (fun d => decide (d.id = cid))).isSome) :
    (upsert c l).find? (fun d => decide (d.id = cid)) = some c ∧
    (upsert c l).length = l.length := by
  induction l with
  | nil => simp [List.find?] at hfound
  | cons d ds ih =>
    by_cases h : d.id = c.id
    · constructor
      · simp [upsert, h, hid]
      · simp [upsert, h]
    · have hd : ¬ d.id = cid := fun hcontra => h (hcontra.trans hid.symm)
      have hfound' : (List.find? (fun e => decide (e.id = cid)) ds).isSome = true := by
        simpa [List.find?, hd] using hfound
      rcases ih hfound' with ⟨h1, h2⟩
      constructor
      · simp only [upsert]
        rw [if_neg h]
        simpa [List.find?, hd] using h1
      · simp [upsert, h, h2]

theorem saveConversation_found (est : List Conversation → Nat) (c : Conversation)
    (s : ServiceState) (cid : String)
    (hest : ∀ l, est l ≤ maxStorageSize) (hid : c.id = cid)
    (hfound : (s.store.find? (fun d => decide (d.id = cid))).isSome)
    (hlen : s.store.length ≤ maxConversations) :
    saveConversation est c s = { store := upsert c s.store, activeId := s.activeId } ∧
    (upsert c s.store).find? (fun d => decide (d.id = cid)) = some c ∧
    (upsert c s.store).length = s.store.length := by
  rcases find?_upsert cid c s.store hid hfound with ⟨h1, h2⟩
  refine ⟨?_, h1, h2⟩
  simp only [saveConversation]
  rw [cleanupOld_noop]
  · exact (h2 ▸ hlen : (upsert c s.store).length ≤ maxConversations)
  · exact hest _

theorem addMessage_core (est : List Conversation → Nat) (cid : String) (msg : ChatMessage)
    (now : Nat) (s : ServiceState) (conv : Conversation)
    (hfind : s.store.find? (fun d => decide (d.id = cid)) = some conv) :
    ∃ c3 : Conversation,
      addMessageToConversation est cid msg now s = saveConversation est c3 s ∧
      c3.messages = conv.messages ++ [msg] ∧ c3.id = conv.id := by
  simp only [addMessageToConversation, hfind]
  refine ⟨_, rfl, ?_, ?_⟩
  · repeat' split
    all_goals rfl
  · repeat' split
    all_goals rfl

theorem addMessage_spec (est : List Conversation → Nat) (cid : String) (msg : ChatMessage)
    (now : Nat) (s : ServiceState) (conv : Conversation)
    (hest : ∀ l, est l ≤ maxStorageSize)
    (hfind : s.store.find? (fun d => decide (d.id = cid)) = some conv)
    (hlen : s.store.length ≤ maxConversations) :
    ∃ conv',
      (addMessageToConversation est cid msg now s).store.find?
          (fun d => decide (d.id = cid)) = some conv' ∧
      conv'.messages = conv.messages ++ [msg] ∧
      (addMessageToConversation est cid msg now s).store.length = s.store.length ∧
      (addMessageToConversation est cid msg now s).activeId = s.activeId := by
  rcases addMessage_core est cid msg now s conv hfind with ⟨c3, heq, hmsgs, hid3⟩
  have hid : conv.id = cid := by simpa using List.find?_some hfind
  have hsome : (s.store.find? (fun d => decide (d.id = cid))).isSome := by simp [hfind]
  rcases saveConversation_found est c3 s cid hest (hid3.trans hid) hsome hlen with
    ⟨hsave, hfind', hlen'⟩
  refine ⟨c3, ?_, hmsgs, ?_, ?_⟩
  · rw [heq, hsave]
    exact hfind'
  · rw [heq, hsave]
    exact hlen'
  · rw [heq, hsave]

/-- Invariant carried across per-model tasks: the store is within the cap
and the active conversation is stored, carries exactly the user turns `F`,
and contains the just-appended user message. -/
def storeHasUser (cid : String) (userMessage : ChatMessage) (F : List ChatMessage)
    (s : ServiceState) : Prop :=
  s.store.length ≤ maxConversations ∧
  ∃ conv, s.store.find? (fun d => decide (d.id = cid)) = some conv ∧
    userMessagesOf conv.messages = F ∧
    userMessage ∈ conv.messages

theorem storeHasUser_addAssistant (est : List Conversation → Nat) (cid : String)
    (userMessage : ChatMessage) (F : List ChatMessage) (s : ServiceState)
    (content : String) (ts : Nat) (mid : Option String) (now : Nat)
    (hest : ∀ l, est l ≤ maxStorageSize)
    (hinv : storeHasUser cid userMessage F s) :
    storeHasUser cid userMessage F
      (addMessageToConversation est cid
        { role := Role.assistant, content := content, timestamp := ts, modelId := mid }
        now s) := by
  rcases hinv with ⟨hlen, conv, hfind, hF, hmem⟩
  rcases addMessage_spec est cid _ now s conv hest hfind hlen with
    ⟨conv', hfind', hmsgs', hlen', _⟩
  refine ⟨by rw [hlen']; exact hlen, conv', hfind', ?_, ?_⟩
  · rw [hmsgs', ← hF]
    simp [userMessagesOf, List.filter_append]
  · rw [hmsgs']
    exact List.mem_append_left _ hmem

theorem buildApiMessages_hasUser (store : List Conversation) (cid : String)
    (model : AIModel) (prompt : PromptData) (userMessage : ChatMessage)
    (conv : Conversation)
    (huser : userMessage.role = Role.user)
    (hfind : store.find? (fun d => decide (d.id = cid)) = some conv)
    (hmem : userMessage ∈ conv.messages)
    (hh : model.useHistory = true) :
    ({ role := "user", content := userMessage.content } : ApiMessage) ∈
      buildApiMessages store cid model prompt := by
  simp only [buildApiMessages, hh, if_pos, getConversationHistory, hfind]
  have := List.mem_map_of_mem
    (fun msg => ({ role := roleToString msg.role, content := msg.content } : ApiMessage)) hmem
  simpa [huser, roleToString] using this

theorem runModelTask_store_inv (rs : RetrySettings) (est : List Conversation → Nat)
    (model : AIModel) (prompt : PromptData) (now : Nat) (oracle : Nat → AttemptOutcome)
    (cid : String) (userMessage : ChatMessage) (F : List ChatMessage)
    (hest : ∀ l, est l ≤ maxStorageSize) (huser : userMessage.role = Role.user) :
    ∀ (gas rc : Nat) (st : EngineState),
      storeHasUser cid userMessage F st.svc →
      storeHasUser cid userMessage F
          (runModelTask rs est model prompt now oracle cid gas rc st).1.svc ∧
      (model.useHistory = true →
        ∀ msgs ∈ (runModelTask rs est model prompt now oracle cid gas rc st).2,
          ({ role := "user", content := userMessage.content } : ApiMessage) ∈ msgs) := by
  intro gas
  induction gas with
  | zero =>
    intro rc st hinv
    exact ⟨hinv, by simp [runModelTask]⟩
  | succ g ih =>
    intro rc st hinv
    by_cases hrc : rc ≤ rs.maxRetries
    · have hapi : model.useHistory = true →
          ({ role := "user", content := userMessage.content } : ApiMessage) ∈
            buildApiMessages st.svc.store cid model prompt := by
        intro hh
        rcases hinv with ⟨_, conv, hfind, _, hmem⟩
        exact buildApiMessages_hasUser _ _ _ _ _ _ huser hfind hmem hh
      simp only [runModelTask]
      rw [if_pos hrc]
      cases houtcome : oracle rc with
      | sendError e =>
        simp only []
        by_cases hretry : shouldRetryError rs e = true ∧ rc < rs.maxRetries
        · rw [if_pos hretry]
          have hIH := ih (rc + 1)
            { st with records := updateRecord st.records model.id (fun mc =>
                { mc with
                    isLoading := true
                    error := some (retryingMessage (rc + 1) rs.maxRetries)
                    retryCount := rc + 1
                    canRetry := false }) } hinv
          refine ⟨hIH.1, ?_⟩
          intro hh msgs hmsgs
          rcases List.mem_cons.mp hmsgs with h | h
          · subst h
            exact hapi hh
          · exact hIH.2 hh msgs h
        · rw [if_neg hretry]
          refine ⟨hinv, ?_⟩
          intro hh msgs hmsgs
          rcases List.mem_singleton.mp hmsgs with rfl
          exact hapi hh
      | stream frags err =>
        cases err with
        | some e =>
          simp only []
          by_cases hretry : shouldRetryError rs e = true ∧ rc < rs.maxRetries
          · rw [if_pos hretry]
            have hIH := ih (rc + 1)
              { st with records := updateRecord (processFragments model.id now frags "" st.records).2 model.id (fun mc =>
                  { mc with
                      isLoading := true
                      error := some (retryingMessage (rc + 1) rs.maxRetries)
                      retryCount := rc + 1
                      canRetry := false }) } hinv
            refine ⟨hIH.1, ?_⟩
            intro hh msgs hmsgs
            rcases List.mem_cons.mp hmsgs with h | h
            · subst h
              exact hapi hh
            · exact hIH.2 hh msgs h
          · rw [if_neg hretry]
            refine ⟨hinv, ?_⟩
            intro hh msgs hmsgs
            rcases List.mem_singleton.mp hmsgs with rfl
            exact hapi hh
        | none =>
          simp only []
          by_cases hbuf : (processFragments model.id now frags "" st.records).1 = ""
          · rw [if_pos hbuf]
            refine ⟨hinv, ?_⟩
            intro hh msgs hmsgs
            rcases List.mem_singleton.mp hmsgs with rfl
            exact hapi hh
          · rw [if_neg hbuf]
            refine ⟨?_, ?_⟩
            · exact storeHasUser_addAssistant est cid userMessage F st.svc _ _ _ now hest hinv
            · intro hh msgs hmsgs
              rcases List.mem_singleton.mp hmsgs with rfl
              exact hapi hh
    · simp only [runModelTask]
      rw [if_neg hrc]
      exact ⟨hinv, by simp⟩

theorem sendFold_inv (rs : RetrySettings) (est : List Conversation → Nat)
    (prompt : PromptData) (now : Nat) (oracle : String → Nat → AttemptOutcome)
    (cid : String) (userMessage : ChatMessage) (F : List ChatMessage)
    (hest : ∀ l, est l ≤ maxStorageSize) (huser : userMessage.role = Role.user) :
    ∀ (ms : List AIModel) (st : EngineState)
      (acc : List (AIModel × List (List ApiMessage))),
      storeHasUser cid userMessage F st.svc →
      (∀ q ∈ acc, q.1.useHistory = true → ∀ msgs ∈ q.2,
        ({ role := "user", content := userMessage.content } : ApiMessage) ∈ msgs) →
      storeHasUser cid userMessage F
          (ms.foldl (sendStep rs est prompt now oracle cid) (st, acc)).1.svc ∧
      (∀ q ∈ (ms.foldl (sendStep rs est prompt now oracle cid) (st, acc)).2,
        q.1.useHistory = true → ∀ msgs ∈ q.2,
          ({ role := "user", content := userMessage.content } : ApiMessage) ∈ msgs) := by
  intro ms
  induction ms with
  | nil =>
    intro st acc hinv hacc
    exact ⟨hinv, hacc⟩
  | cons m tail ih =>
    intro st acc hinv hacc
    rcases runModelTask_store_inv rs est m prompt now (oracle m.id) cid userMessage F hest
        huser (rs.maxRetries + 1) 0 st hinv with ⟨h1, h2⟩
    refine ih _ _ h1 ?_
    intro q hq
    rcases List.mem_append.mp hq with h | h
    · exact hacc q h
    · rcases List.mem_singleton.mp h with rfl
      exact h2

/-- C5: a submission with a non-empty enabled set appends the user message
to the stored active conversation exactly once (the stored user-turn list
grows by exactly that one message, however many models are enabled), and
every outbound message list any history-enabled model sends — in any attempt
— contains that just-submitted user prompt. -/
theorem C5_user_appended_once_before_dispatch (models : List AIModel)
    (rsOpt : Option RetrySettings) (est : List Conversation → Nat) (prompt : PromptData)
    (freshId : String) (now : Nat) (oracle : String → Nat → AttemptOutcome)
    (st : EngineState) (cid : String) (conv0 : Conversation)
    (hest : ∀ l, est l ≤ maxStorageSize)
    (hactive : st.hookActiveId = some cid)
    (hfind : st.svc.store.find? (fun d => decide (d.id = cid)) = some conv0)
    (hlen : st.svc.store.length ≤ maxConversations)
    (hen : ¬ (models.filter (fun m => m.isEnabled)).isEmpty = true) :
    (∃ conv',
      (sendPromptToEnabledModels models rsOpt est prompt freshId now oracle
          st).1.svc.store.find? (fun d => decide (d.id = cid)) = some conv' ∧
      userMessagesOf conv'.messages =
        userMessagesOf conv0.messages ++
          [{ role := Role.user, content := prompt.text, timestamp := now, modelId := none }]) ∧
    (∀ q ∈ (sendPromptToEnabledModels models rsOpt est prompt freshId now oracle st).2,
      q.1.useHistory = true → ∀ msgs ∈ q.2,
        ({ role := "user", content := prompt.text } : ApiMessage) ∈ msgs) := by
  have huser :
      ({ role := Role.user, content := prompt.text, timestamp := now, modelId := none } :
        ChatMessage).role = Role.user := rfl
  rcases addMessage_spec est cid
      { role := Role.user, content := prompt.text, timestamp := now, modelId := none } now
      st.svc conv0 hest hfind hlen with ⟨conv1, hfind1, hmsgs1, hlen1, _⟩
  have hinv : storeHasUser cid
      { role := Role.user, content := prompt.text, timestamp := now, modelId := none }
      (userMessagesOf conv0.messages ++
        [{ role := Role.user, content := prompt.text, timestamp := now, modelId := none }])
      (addMessageToConversation est cid
        { role := Role.user, content := prompt.text, timestamp := now, modelId := none } now
        st.svc) := by
    refine ⟨by rw [hlen1]; exact hlen, conv1, hfind1, ?_, ?_⟩
    · rw [hmsgs1]
      simp [userMessagesOf, List.filter_append]
    · rw [hmsgs1]
      exact List.mem_append_right _ (by simp)
  have hmain := sendFold_inv (rsOpt.getD defaultRetrySettings) est prompt now oracle cid
      { role := Role.user, content := prompt.text, timestamp := now, modelId := none }
      (userMessagesOf conv0.messages ++
        [{ role := Role.user, content := prompt.text, timestamp := now, modelId := none }])
      hest huser (models.filter (fun m => m.isEnabled))
      { st with
          hookActiveId := some cid
          svc := addMessageToConversation est cid
            { role := Role.user, content := prompt.text, timestamp := now, modelId := none }
            now st.svc
          records := fun id =>
            if (models.filter (fun m => m.isEnabled)).any (fun m => decide (m.id = id)) then
              (st.records id).map (fun mc =>
                { mc with
                    messages := mc.messages ++
                      [{ role := Role.user, content := prompt.text, timestamp := now,
                         modelId := none }]
                    isLoading := true
                    error := none
                    canRetry := false
                    retryCount := 0 })
            else st.records id }
      [] hinv (by simp)
  simp only [sendPromptToEnabledModels, hactive]
  rw [if_neg hen]
  simp only [sendPromptToModels, hactive]
  rcases hmain with ⟨⟨hlenF, conv', hfindF, hFF, hmemF⟩, houtF⟩
  exact ⟨⟨conv', hfindF, hFF⟩, houtF⟩

/-- C5 witness: one history-enabled model submitting "hi" against the
single-conversation fixture. -/
theorem C5_witness :
    (∀ l, est0 l ≤ maxStorageSize) ∧
    st0.hookActiveId = some "c1" ∧
    st0.svc.store.find? (fun d => decide (d.id = "c1")) = some conv0 ∧
    st0.svc.store.length ≤ maxConversations ∧
    ¬ (([{ modelAlpha with useHistory := true }] : List AIModel).filter
        (fun m => m.isEnabled)).isEmpty = true ∧
    ((∃ conv',
      (sendPromptToEnabledModels [{ modelAlpha with useHistory := true }] (some rsGate) est0
          promptHi "f" 5 (fun _ _ => AttemptOutcome.stream ["ok"] none) st0).1.svc.store.find?
        (fun d => decide (d.id = "c1")) = some conv' ∧
      userMessagesOf conv'.messages =
        userMessagesOf conv0.messages ++
          [{ role := Role.user, content := promptHi.text, timestamp := 5, modelId := none }]) ∧
    (∀ q ∈ (sendPromptToEnabledModels [{ modelAlpha with useHistory := true }] (some rsGate)
          est0 promptHi "f" 5 (fun _ _ => AttemptOutcome.stream ["ok"] none) st0).2,
      q.1.useHistory = true → ∀ msgs ∈ q.2,
        ({ role := "user", content := promptHi.text } : ApiMessage) ∈ msgs)) :=
  ⟨fun _ => Nat.zero_le _, by decide, by decide, by decide, by decide,
   C5_user_appended_once_before_dispatch [{ modelAlpha with useHistory := true }] (some rsGate)
     est0 promptHi "f" 5 (fun _ _ => AttemptOutcome.stream ["ok"] none) st0 "c1" conv0
     (fun _ => Nat.zero_le _) (by decide) (by decide) (by decide) (by decide)⟩

/-! ### C10 — storage cap and oldest-first eviction on save -/

theorem upsert_mem (c : Conversation) (l : List Conversation) : c ∈ upsert c l := by
  induction l with
  | nil => simp [upsert]
  | cons d ds ih =>
    by_cases h : d.id = c.id
    · simp [upsert, h]
    · simp only [upsert, if_neg h]
      exact List.mem_cons_of_mem d ih

theorem mem_upsert (g c : Conversation) (l : List Conversation) (hg : g ∈ upsert c l) :
    g = c ∨ g ∈ l := by
  induction l with
  | nil => simpa [upsert] using hg
  | cons d ds ih =>
    by_cases h : d.id = c.id
    · simp only [upsert, if_pos h, List.mem_cons] at hg
      rcases hg with h1 | h1
      · exact Or.inl h1
      · exact Or.inr (List.mem_cons_of_mem d h1)
    · simp only [upsert, if_neg h, List.mem_cons] at hg
      rcases hg with h1 | h1
      · exact Or.inr (h1 ▸ List.mem_cons_self d ds)
      · rcases ih h1 with h2 | h2
        · exact Or.inl h2
        · exact Or.inr (List.mem_cons_of_mem d h2)

theorem upsert_ids_nodup (c : Conversation) (l : List Conversation)
    (h : (l.map (fun d => d.id)).Nodup) : ((upsert c l).map (fun d => d.id)).Nodup := by
  induction l with
  | nil => simp [upsert]
  | cons d ds ih =>
    rw [List.map_cons, List.nodup_cons] at h
    by_cases hh : d.id = c.id
    · simp only [upsert, if_pos hh, List.map_cons, List.nodup_cons]
      exact ⟨hh ▸ h.1, h.2⟩
    · simp only [upsert, if_neg hh, List.map_cons, List.nodup_cons]
      refine ⟨?_, ih h.2⟩
      intro hmem
      rcases List.mem_map.mp hmem with ⟨g, hg, hgid⟩
      rcases mem_upsert g c ds hg with rfl | hgds
      · exact hh (hgid ▸ rfl)
      · exact h.1 (List.mem_map.mpr ⟨g, hgds, hgid⟩)

theorem mem_upsert_of_nodup (g c : Conversation) (l : List Conversation)
    (hnd : (l.map (fun d => d.id)).Nodup) (hg : g ∈ upsert c l) :
    g = c ∨ (g ∈ l ∧ ¬ g.id = c.id) := by
  induction l with
  | nil => exact Or.inl (by simpa [upsert] using hg)
  | cons d ds ih =>
    rw [List.map_cons, List.nodup_cons] at hnd
    by_cases h : d.id = c.id
    · simp only [upsert, if_pos h, List.mem_cons] at hg
      rcases hg with h1 | h1
      · exact Or.inl h1
      · refine Or.inr ⟨List.mem_cons_of_mem d h1, ?_⟩
        intro hgc
        exact hnd.1 (List.mem_map.mpr ⟨g, h1, hgc.trans h.symm⟩)
    · simp only [upsert, if_neg h, List.mem_cons] at hg
      rcases hg with h1 | h1
      · subst h1
        exact Or.inr ⟨List.mem_cons_self _ _, h⟩
      · rcases ih hnd.2 h1 with h2 | h2
        · exact Or.inl h2
        · exact Or.inr ⟨List.mem_cons_of_mem d h2.1, h2.2⟩

theorem deleteFilter_perm (c : Conversation) (rest store : List Conversation)
    (hperm : (c :: rest).Perm store) (hnd : (store.map (fun d => d.id)).Nodup) :
    (store.filter (fun d => decide ¬(d.id = c.id))).Perm rest ∧
    ((store.filter (fun d => decide ¬(d.id = c.id))).map (fun d => d.id)).Nodup := by
  have hstore_nd : store.Nodup := List.Nodup.of_map _ hnd
  have hcons_nd : (c :: rest).Nodup := (hperm.nodup_iff).mpr hstore_nd
  have hcnotin : c ∉ rest := (List.nodup_cons.mp hcons_nd).1
  have hrest_nd : rest.Nodup := (List.nodup_cons.mp hcons_nd).2
  have hfil_nd : (store.filter (fun d => decide ¬(d.id = c.id))).Nodup :=
    hstore_nd.sublist (List.filter_sublist store)
  have hids_nd : ((store.filter (fun d => decide ¬(d.id = c.id))).map (fun d => d.id)).Nodup :=
    hnd.sublist (List.Sublist.map _ (List.filter_sublist store))
  refine ⟨(List.perm_ext_iff_of_nodup hfil_nd hrest_nd).mpr ?_, hids_nd⟩
  intro a
  simp only [List.mem_filter, decide_eq_true_eq]
  constructor
  · rintro ⟨ha, hane⟩
    rcases List.mem_cons.mp (hperm.mem_iff.mpr ha) with rfl | h
    · exact absurd rfl hane
    · exact h
  · intro ha
    refine ⟨hperm.mem_iff.mp (List.mem_cons_of_mem c ha), ?_⟩
    intro haid
    have hc : c ∈ store := hperm.mem_iff.mp (List.mem_cons_self c rest)
    have hastore : a ∈ store := hperm.mem_iff.mp (List.mem_cons_of_mem c ha)
    have haeq : a = c := List.inj_on_of_nodup_map hnd hastore hc haid
    exact hcnotin (haeq ▸ ha)

theorem cleanupCount_spec : ∀ (sorted : List Conversation) (s : ServiceState),
    sorted.Perm s.store → (s.store.map (fun d => d.id)).Nodup →
    (∃ pre, sorted = pre ++ (cleanupCount sorted s).1) ∧
    (cleanupCount sorted s).1.Perm (cleanupCount sorted s).2.store ∧
    ((cleanupCount sorted s).2.store.map (fun d => d.id)).Nodup ∧
    (cleanupCount sorted s).1.length ≤ maxConversations ∧
    (sorted ≠ [] → (cleanupCount sorted s).1 ≠ []) := by
  intro sorted
  induction sorted with
  | nil =>
    intro s hperm hnd
    exact ⟨⟨[], rfl⟩, hperm, hnd, by simp [cleanupCount, maxConversations],
      fun h => absurd rfl h⟩
  | cons c rest ih =>
    intro s hperm hnd
    by_cases h : (c :: rest).length > maxConversations
    · have hdel := deleteFilter_perm c rest s.store hperm hnd
      have hstep : cleanupCount (c :: rest) s =
          cleanupCount rest (svcDeleteConversation c.id s) := by
        simp only [cleanupCount]
        rw [if_pos h]
      have hperm' : rest.Perm (svcDeleteConversation c.id s).store := by
        rw [svcDelete_store]
        exact hdel.1.symm
      have hnd' : ((svcDeleteConversation c.id s).store.map (fun d => d.id)).Nodup := by
        rw [svcDelete_store]
        exact hdel.2
      rcases ih (svcDeleteConversation c.id s) hperm' hnd' with
        ⟨⟨pre, hpre⟩, hperm2, hnd2, hlen2, hne2⟩
      rw [hstep]
      refine ⟨⟨c :: pre, by rw [List.cons_append, ← hpre]⟩, hperm2, hnd2, hlen2, ?_⟩
      intro _
      apply hne2
      have hpos : 0 < rest.length := by
        simp only [List.length_cons, maxConversations] at h
        omega
      exact List.ne_nil_of_length_pos hpos
    · have hstep : cleanupCount (c :: rest) s = (c :: rest, s) := by
        simp only [cleanupCount]
        rw [if_neg h]
      rw [hstep]
      exact ⟨⟨[], rfl⟩, hperm, hnd, Nat.not_lt.mp h, fun _ => by simp⟩

theorem cleanupSize_spec (est : List Conversation → Nat) :
    ∀ (l : List Conversation) (s : ServiceState),
      l.Perm s.store → (s.store.map (fun d => d.id)).Nodup →
      (∃ pre, l = pre ++ (cleanupSize est l s).1) ∧
      (cleanupSize est l s).1.Perm (cleanupSize est l s).2.store ∧
      ((cleanupSize est l s).2.store.map (fun d => d.id)).Nodup ∧
      (cleanupSize est l s).1.length ≤ l.length ∧
      (l ≠ [] → (cleanupSize est l s).1 ≠ []) := by
  intro l
  induction l with
  | nil =>
    intro s hperm hnd
    exact ⟨⟨[], rfl⟩, hperm, hnd, Nat.le_refl _, fun h => absurd rfl h⟩
  | cons c t ih =>
    intro s hperm hnd
    cases t with
    | nil =>
      exact ⟨⟨[], rfl⟩, hperm, hnd, Nat.le_refl _, fun _ => by simp [cleanupSize]⟩
    | cons c' rest =>
      by_cases h : est s.store > maxStorageSize
      · have hdel := deleteFilter_perm c (c' :: rest) s.store hperm hnd
        have hstep : cleanupSize est (c :: c' :: rest) s =
            cleanupSize est (c' :: rest) (svcDeleteConversation c.id s) := by
          simp only [cleanupSize]
          rw [if_pos h]
        have hperm' : (c' :: rest).Perm (svcDeleteConversation c.id s).store := by
          rw [svcDelete_store]
          exact hdel.1.symm
        have hnd' : ((svcDeleteConversation c.id s).store.map (fun d => d.id)).Nodup := by
          rw [svcDelete_store]
          exact hdel.2
        rcases ih (svcDeleteConversation c.id s) hperm' hnd' with
          ⟨⟨pre, hpre⟩, h2, h3, h4, h5⟩
        rw [hstep]
        refine ⟨⟨c :: pre, by rw [List.cons_append, ← hpre]⟩, h2, h3, ?_, ?_⟩
        · exact Nat.le_trans h4 (by simp)
        · intro _
          exact h5 (by simp)
      · have hstep : cleanupSize est (c :: c' :: rest) s = (c :: c' :: rest, s) := by
          simp only [cleanupSize]
          rw [if_neg h]
        rw [hstep]
        exact ⟨⟨[], rfl⟩, hperm, hnd, Nat.le_refl _, fun _ => by simp⟩

theorem sorted_getLast_strict_max : ∀ (l : List Conversation), List.Sorted updLe l →
    l.Nodup → ∀ c ∈ l, (∀ g ∈ l, g ≠ c → g.updatedAt < c.updatedAt) →
    l.getLast? = some c := by
  intro l
  induction l with
  | nil =>
    intro _ _ c hc
    cases hc
  | cons a t ih =>
    intro hs hnd c hc hmax
    cases t with
    | nil =>
      rcases List.mem_singleton.mp hc with rfl
      rfl
    | cons b t' =>
      rw [List.getLast?_cons_cons]
      have hs' := List.sorted_cons.mp hs
      have hnd' := List.nodup_cons.mp hnd
      have hc' : c ∈ b :: t' := by
        rcases List.mem_cons.mp hc with rfl | h
        · exfalso
          have hbne : b ≠ c := fun hbeq => hnd'.1 (hbeq ▸ List.mem_cons_self b t')
          have hlt : b.updatedAt < c.updatedAt :=
            hmax b (List.mem_cons_of_mem _ (List.mem_cons_self _ _)) hbne
          have hle : updLe c b := hs'.1 b (List.mem_cons_self b t')
          unfold updLe at hle
          omega
        · exact h
      refine ih hs'.2 hnd'.2 c hc' ?_
      intro g hg hgne
      exact hmax g (List.mem_cons_of_mem a hg) hgne

theorem mem_of_getLast?_eq (l : List Conversation) (c : Conversation)
    (h : l.getLast? = some c) : c ∈ l := by
  cases l with
  | nil => cases h
  | cons a t =>
    rw [List.getLast?_eq_getLast_of_ne_nil (List.cons_ne_nil a t)] at h
    have hmem := List.getLast_mem (List.cons_ne_nil a t)
    rwa [Option.some_inj.mp h] at hmem

/-- C10 amended: after any `saveConversation` on a store with pairwise
distinct ids, at most 50 conversations remain; every evicted conversation
has an `updatedAt` no newer than every surviving one (oldest evicted first,
by both the count cap and the storage-size loop); and the just-saved
conversation survives whenever its `updatedAt` is strictly newer than every
other stored conversation's — but a save carrying the strictly oldest
`updatedAt` into a full store can evict the conversation just saved. -/
theorem C10_amended_save_cap_eviction (est : List Conversation → Nat)
    (c : Conversation) (s : ServiceState)
    (hnd : (s.store.map (fun d => d.id)).Nodup) :
    (saveConversation est c s).store.length ≤ maxConversations ∧
    (∀ r ∈ upsert c s.store, r ∉ (saveConversation est c s).store →
      ∀ k ∈ (saveConversation est c s).store, r.updatedAt ≤ k.updatedAt) ∧
    ((∀ d ∈ s.store, ¬ d.id = c.id → d.updatedAt < c.updatedAt) →
      c ∈ (saveConversation est c s).store) := by
  have hnd1 : ((upsert c s.store).map (fun d => d.id)).Nodup := upsert_ids_nodup c s.store hnd
  set store1 := upsert c s.store with hstore1
  set sorted := List.insertionSort updLe store1 with hsorteddef
  have hperm0 : sorted.Perm store1 := List.perm_insertionSort updLe store1
  have hsorted : List.Sorted updLe sorted := List.sorted_insertionSort updLe store1
  rcases cleanupCount_spec sorted { s with store := store1 } hperm0 hnd1 with
    ⟨⟨pre0, hpre0⟩, hpermA, hndA, hlenA, hneA⟩
  rcases cleanupSize_spec est (cleanupCount sorted { s with store := store1 }).1
      (cleanupCount sorted { s with store := store1 }).2 hpermA hndA with
    ⟨⟨pre1, hpre1⟩, hpermB, hndB, hlenB, hneB⟩
  have hsave : (saveConversation est c s).store =
      (cleanupSize est (cleanupCount sorted { s with store := store1 }).1
        (cleanupCount sorted { s with store := store1 }).2).2.store := rfl
  have hsorted_eq : sorted =
      (pre0 ++ pre1) ++
        (cleanupSize est (cleanupCount sorted { s with store := store1 }).1
          (cleanupCount sorted { s with store := store1 }).2).1 := by
    rw [List.append_assoc, ← hpre1, ← hpre0]
  refine ⟨?_, ?_, ?_⟩
  · rw [hsave, ← hpermB.length_eq]
    exact Nat.le_trans hlenB hlenA
  · intro r hr hrnot k hk
    rw [hsave] at hrnot hk
    have hrs : r ∈ sorted := hperm0.mem_iff.mpr hr
    have hks : k ∈ (cleanupSize est (cleanupCount sorted { s with store := store1 }).1
        (cleanupCount sorted { s with store := store1 }).2).1 := hpermB.mem_iff.mpr hk
    rw [hsorted_eq] at hrs
    rcases List.mem_append.mp hrs with hpre | hkept
    · have hp : List.Pairwise updLe sorted := hsorted
      rw [hsorted_eq] at hp
      exact (List.pairwise_append.mp hp).2.2 r hpre k hks
    · exact absurd (hpermB.mem_iff.mp hkept) hrnot
  · intro hstrict
    have hc1 : c ∈ store1 := upsert_mem c s.store
    have hothers : ∀ g ∈ store1, g ≠ c → g.updatedAt < c.updatedAt := by
      intro g hg hgne
      rcases mem_upsert_of_nodup g c s.store hnd hg with h | ⟨hgs, hgid⟩
      · exact absurd h hgne
      · exact hstrict g hgs hgid
    have hnodup1 : store1.Nodup := List.Nodup.of_map _ hnd1
    have hsorted_nd : sorted.Nodup := (hperm0.nodup_iff).mpr hnodup1
    have hcs : c ∈ sorted := hperm0.mem_iff.mpr hc1
    have hlast : sorted.getLast? = some c := by
      refine sorted_getLast_strict_max sorted hsorted hsorted_nd c hcs ?_
      intro g hg hgne
      exact hothers g (hperm0.mem_iff.mp hg) hgne
    have hsne : sorted ≠ [] := List.ne_nil_of_mem hcs
    have hk1ne : (cleanupSize est (cleanupCount sorted { s with store := store1 }).1
        (cleanupCount sorted { s with store := store1 }).2).1 ≠ [] := hneB (hneA hsne)
    rw [hsorted_eq, List.getLast?_append_of_ne_nil _ hk1ne] at hlast
    rw [hsave]
    exact hpermB.mem_iff.mp (mem_of_getLast?_eq _ _ hlast)

/-- A full store of 50 conversations with distinct one-character ids and
recent timestamps. -/
def storeFifty : List Conversation :=
  (List.range 50).map (fun i =>
    { id := ⟨[Char.ofNat (65 + i)]⟩, title := "t", createdAt := 0, updatedAt := 100 + i,
      messages := [], modelIds := [] })

/-- A new conversation whose `updatedAt` is older than everything stored. -/
def convStale : Conversation :=
  { id := "zz-new", title := "t", createdAt := 0, updatedAt := 5, messages := [], modelIds := [] }

/-- C10 counterexample: saving a conversation carrying the strictly oldest
`updatedAt` into a full 50-conversation store evicts the conversation just
saved (the cap eviction removes the oldest `updatedAt`, which is the saved
record itself). -/
theorem C10_counterexample :
    storeFifty.length = 50 ∧
    ((saveConversation (fun _ => 0) convStale
        { store := storeFifty, activeId := none }).store.filter
      (fun d => decide (d.id = "zz-new"))) = [] ∧
    (saveConversation (fun _ => 0) convStale
        { store := storeFifty, activeId := none }).store.length = 50 := by
  refine ⟨by decide, by decide, by decide⟩

/-- C10 witness: the amended statement applied to a one-conversation store
receiving a strictly newer save. -/
theorem C10_amended_witness :
    (([convA3].map (fun d => d.id)).Nodup) ∧
    ((saveConversation est0 convB3 { store := [convA3], activeId := some "a" }).store.length ≤
        maxConversations ∧
     (∀ r ∈ upsert convB3 [convA3],
        r ∉ (saveConversation est0 convB3 { store := [convA3], activeId := some "a" }).store →
        ∀ k ∈ (saveConversation est0 convB3 { store := [convA3], activeId := some "a" }).store,
          r.updatedAt ≤ k.updatedAt) ∧
     ((∀ d ∈ ([convA3] : List Conversation), ¬ d.id = convB3.id →
         d.updatedAt < convB3.updatedAt) →
       convB3 ∈ (saveConversation est0 convB3 { store := [convA3], activeId := some "a" }).store)) :=
  ⟨by decide,
   C10_amended_save_cap_eviction est0 convB3 { store := [convA3], activeId := some "a" }
     (by decide)⟩

end LocalFiesta
